import Mathlib

/-!
Verification of the Legal Diff edit-resolution-and-diff pipeline.

The data model follows `frontend/src/types/index.ts` and the backend data
model documented in `DEVELOPER_README.md` (`EditTarget`, `PatchedFragment`,
`Article`).  Backend pipeline functions (`phase1_find_targets`,
`phase2_apply_edits`, the diff endpoint) are not part of the checked-in
sources, so they are modelled from the specification where noted.
-/

/-- Status union of `EditTarget.status` from `frontend/src/types/index.ts`
(`'pending' | 'running' | 'completed' | 'failed' | 'review'`), named
`EditJobStatus` as in `DEVELOPER_README.md`. -/
inductive EditJobStatus where
  | pending
  | running
  | completed
  | failed
  | review
deriving DecidableEq

/-- Change kind union of `DiffItem.change_type` from
`frontend/src/types/index.ts` (`'added' | 'modified' | 'deleted'`). -/
inductive ChangeType where
  | added
  | modified
  | deleted
deriving DecidableEq

/-- Article row: `article_number`, `title`, `content` per the backend data
model description, plus the database `id` that `EditTarget.article_id`
references. -/
structure Article where
  id : Int
  article_number : String
  title : String
  content : String
deriving DecidableEq

/-- The read-only view over the base document's articles. -/
abbrev ArticleStore := List Article

/-- Look an article up by its `article_number`. -/
def ArticleStore.getByNumber (s : ArticleStore) (n : String) : Option Article :=
  s.find? (fun a => a.article_number == n)

/-- Look an article up by its database `id`. -/
def ArticleStore.getById (s : ArticleStore) (i : Int) : Option Article :=
  s.find? (fun a => a.id == i)

/-- `EditTarget` from `frontend/src/types/index.ts`: `article_id` is
`number | null` (the resolved article), `article_number` is the optional
raw reference extracted from the instructions. -/
structure EditTarget where
  id : Nat
  workspace_file_id : Nat
  status : EditJobStatus
  instruction_text : String
  article_number : Option String
  article_id : Option Int
deriving DecidableEq

/-- `PatchedFragment` per the backend data model description:
before/after text pair plus a derived change kind. -/
structure PatchedFragment where
  edit_target_id : Nat
  before_text : String
  after_text : String
  change_type : ChangeType
deriving DecidableEq

/-- Error taxonomy of the pipeline (spec section 7). -/
inductive CoreError where
  | unresolvedReference
  | transformFailure
  | invalidStateTransition
  | groupingFailure
deriving DecidableEq

/-- Modelled from the spec: the allowed status transitions of the
EditTarget state machine (section 4.3): `pending → completed`,
`pending → failed`, `review → pending` (manual rebind), `failed →
pending` (manual retry).  The backend coordinator owning this machine is
not among the checked-in sources. -/
def allowedTransition : EditJobStatus → EditJobStatus → Bool
  | .pending, .completed => true
  | .pending, .failed => true
  | .review, .pending => true
  | .failed, .pending => true
  | _, _ => false

/-- Modelled from the spec: `changeKind` derivation of `PatchedFragment.change_type`
(section 4.2): `added` if `beforeText` is empty and `afterText` is non-empty,
`deleted` if the inverse, else `modified`.  The backend code computing
`change_type` is not among the checked-in sources. -/
def changeKind (before after : String) : ChangeType :=
  if before.isEmpty && !after.isEmpty then .added
  else if !before.isEmpty && after.isEmpty then .deleted
  else .modified

/-- The text-transform capability (spec section 6): takes the current text
and an instruction, and may fail. -/
abbrev TextTransform := String → String → Except String String

/-- Modelled from the spec: `PatchApplier.apply` (section 4.2 and
`phase2_apply_edits`, not among the checked-in sources).  Precondition
`status = pending` is enforced as a hard precondition signalled as
`InvalidStateTransition`; on transform success a `PatchedFragment` is
produced and the target becomes `completed`; on failure the target
becomes `failed`.  Returns the (possibly updated) target, the fragment if
one was created, and the error if any. -/
def applyTarget (t : EditTarget) (articles : ArticleStore) (transform : TextTransform) :
    EditTarget × Option PatchedFragment × Option CoreError :=
  if t.status = .pending then
    match t.article_id.bind (fun i => ArticleStore.getById articles i) with
    | none => ({ t with status := .failed }, none, some .transformFailure)
    | some a =>
      match transform a.content t.instruction_text with
      | .ok afterText =>
        ({ t with status := .completed },
         some { edit_target_id := t.id, before_text := a.content,
                after_text := afterText,
                change_type := changeKind a.content afterText },
         none)
      | .error _ => ({ t with status := .failed }, none, some .transformFailure)
  else (t, none, some .invalidStateTransition)

/-- JavaScript truthiness of `t.article_id : number | null`: `null` and
`0` are falsy, every other number truthy (used by the
`disabled=(targets.some(t => !t.article_id))` gate in `ReviewPage.tsx`). -/
def jsTruthyId : Option Int → Bool
  | none => false
  | some n => n != 0

/-- The apply ("Применить правки") button gate from `ReviewPage.tsx`:
`disabled={targets.some(t => !t.article_id)}`. -/
def applyDisabled (targets : List EditTarget) : Bool :=
  targets.any (fun t => ! jsTruthyId t.article_id)

/-- The members exported on the `editsAPI` object in
`frontend/src/services/api.ts`. -/
def editsAPI_members : List String :=
  ["startPhase1", "getTargets", "updateTarget", "startPhase2", "getTaskStatus"]

/-- Whether `editsAPI.m` is defined in `frontend/src/services/api.ts`. -/
def editsAPI_has (m : String) : Bool :=
  editsAPI_members.contains m

/-- `handleDeleteTarget` from `ReviewPage.tsx`: it invokes
`editsAPI.deleteTarget(targetId)` and, on success, removes the target from
the list; on any error (including the member lookup failing because
`editsAPI` has no such member) the catch branch leaves the list unchanged.
The returned Bool records whether the deletion succeeded. -/
def handleDeleteTarget (targets : List EditTarget) (targetId : Nat) :
    List EditTarget × Bool :=
  if editsAPI_has "deleteTarget" then
    (targets.filter (fun t => t.id != targetId), true)
  else
    (targets, false)

/-- One instruction group produced by the external grouping capability
(spec section 6, `InstructionGrouping`): at most one article reference
plus the instruction text assigned to it. -/
structure InstructionGroup where
  article_number : Option String
  instruction_text : String
deriving DecidableEq

/-- Modelled from the spec: target creation of Phase 1
(`phase1_find_targets`, not among the checked-in sources; see spec
section 4.1): if the referenced article number exists in the store the
target is `pending` with `article_id` set, otherwise it is `review` with
`article_id` unset. -/
def resolveGroup (articles : ArticleStore) (fileId : Nat) (idx : Nat)
    (g : InstructionGroup) : EditTarget :=
  match g.article_number.bind (fun n => ArticleStore.getByNumber articles n) with
  | some a =>
    { id := idx, workspace_file_id := fileId, status := .pending,
      instruction_text := g.instruction_text, article_number := g.article_number,
      article_id := some a.id }
  | none =>
    { id := idx, workspace_file_id := fileId, status := .review,
      instruction_text := g.instruction_text, article_number := g.article_number,
      article_id := none }

/-- Resolution of a list of groups, assigning consecutive ids from `idx`. -/
def resolveFrom (articles : ArticleStore) (fileId : Nat) (idx : Nat) :
    List InstructionGroup → List EditTarget
  | [] => []
  | g :: gs => resolveGroup articles fileId idx g :: resolveFrom articles fileId (idx + 1) gs

/-- Modelled from the spec: `TargetResolver.resolve` (section 4.1) on an
already-grouped instruction list: one `EditTarget` per group. -/
def resolve (groups : List InstructionGroup) (articles : ArticleStore) (fileId : Nat) :
    List EditTarget :=
  resolveFrom articles fileId 0 groups



/-- A pipeline store: the persisted targets and fragments (the only shared
mutable state, spec section 5). -/
structure PipelineState where
  targets : List EditTarget
  fragments : List PatchedFragment
deriving DecidableEq

/-- The targets persisted for one workspace file. -/
def targetsFor (st : PipelineState) (fileId : Nat) : List EditTarget :=
  st.targets.filter (fun t => t.workspace_file_id == fileId)

/-- Modelled from the spec: `runResolution` (section 4.5), whose
existing-targets check is the one implemented by
`checkAndStartPhase1` in `ReviewPage.tsx` and `handleStartPhase1` in
`DocumentPage`: if targets already exist for the file they are returned
unchanged; otherwise Phase 1 resolution runs and persists its targets. -/
def runResolution (st : PipelineState) (fileId : Nat) (groups : List InstructionGroup)
    (articles : ArticleStore) : PipelineState × List EditTarget :=
  if (targetsFor st fileId).isEmpty then
    ({ st with targets := st.targets ++ resolve groups articles fileId },
     resolve groups articles fileId)
  else
    (st, targetsFor st fileId)


/-- Modelled from the spec: per-target application step of `runApplication`
(section 4.5): a `pending` target of the file is applied, every other
target is left untouched. -/
def stepTarget (articles : ArticleStore) (transform : TextTransform) (fileId : Nat)
    (t : EditTarget) : EditTarget :=
  if t.workspace_file_id = fileId ∧ t.status = .pending then
    (applyTarget t articles transform).1
  else t

/-- The fragment (if any) produced for one target during `runApplication`. -/
def collectFragment (articles : ArticleStore) (transform : TextTransform) (fileId : Nat)
    (t : EditTarget) : Option PatchedFragment :=
  if t.workspace_file_id = fileId ∧ t.status = .pending then
    (applyTarget t articles transform).2.1
  else none

/-- Modelled from the spec: `runApplication` (section 4.5 and
`phase2_apply_edits`, not among the checked-in sources): applies every
`pending` target of the file independently (per-target isolation, spec
section 7), appending the produced fragments. -/
def runApplication (st : PipelineState) (fileId : Nat) (articles : ArticleStore)
    (transform : TextTransform) : PipelineState :=
  { targets := st.targets.map (stepTarget articles transform fileId),
    fragments := st.fragments ++ st.targets.filterMap (collectFragment articles transform fileId) }

/-- Whether the apply-time transform attempt on a target succeeds: its
article resolves in the store and the transform returns ok on its text. -/
def transformOk (articles : ArticleStore) (transform : TextTransform)
    (t : EditTarget) : Bool :=
  match t.article_id.bind (fun i => ArticleStore.getById articles i) with
  | none => false
  | some a =>
    match transform a.content t.instruction_text with
    | .ok _ => true
    | .error _ => false

/-- The spec scenario's instruction groups, as produced by grouping the raw
instructions "Статья 1 / 1) replace X with Y / Статья 99 / 1) delete Z". -/
def scenGroups : List InstructionGroup :=
  [{ article_number := some "1", instruction_text := "1) replace X with Y" },
   { article_number := some "99", instruction_text := "1) delete Z" }]

/-- The spec scenario's ArticleStore: only article number "1" exists. -/
def scenArticles : ArticleStore :=
  [{ id := 1, article_number := "1", title := "Статья 1", content := "X" }]

/-- A concrete pending target bound to article 1. -/
def demoPending : EditTarget :=
  { id := 1, workspace_file_id := 1, status := .pending,
    instruction_text := "append Y", article_number := some "1", article_id := some 1 }

/-- A concrete unresolved target in review. -/
def demoReview : EditTarget :=
  { id := 2, workspace_file_id := 1, status := .review,
    instruction_text := "1) delete Z", article_number := some "99", article_id := none }

/-- A concrete already-completed target. -/
def demoCompleted : EditTarget :=
  { id := 3, workspace_file_id := 1, status := .completed,
    instruction_text := "done", article_number := some "1", article_id := some 1 }

/-- A concrete pending target whose instruction makes `demoTransform` fail. -/
def demoFailTarget : EditTarget :=
  { id := 11, workspace_file_id := 1, status := .pending,
    instruction_text := "fail", article_number := some "1", article_id := some 1 }

/-- A second concrete pending target. -/
def demoPending2 : EditTarget :=
  { id := 12, workspace_file_id := 1, status := .pending,
    instruction_text := "second", article_number := some "1", article_id := some 1 }

/-- A concrete text transform that errors exactly on the instruction "fail". -/
def demoTransform : TextTransform :=
  fun before instr => if instr = "fail" then .error "boom" else .ok (before ++ "|" ++ instr)

/-- A store already holding one target for workspace file 1. -/
def demoState : PipelineState := { targets := [demoPending], fragments := [] }

/-- A store with three pending targets for workspace file 1, the middle one
doomed to fail under `demoTransform`. -/
def demoState3 : PipelineState :=
  { targets := [demoPending, demoFailTarget, demoPending2], fragments := [] }

/-- The fragment `applyTarget` produces for `demoPending` under
`demoTransform` over `scenArticles`. -/
def demoFragment : PatchedFragment :=
  { edit_target_id := 1, before_text := "X", after_text := "X|append Y",
    change_type := .modified }

/-- A line of text, as a list of characters. -/
abbrev DiffLine := List Char

/-- One line-level operation of an edit script (spec section 3,
`DiffResult`): `equal`, `insert` or `delete`. -/
inductive DiffOp where
  | equal (l : DiffLine)
  | insert (l : DiffLine)
  | delete (l : DiffLine)
deriving DecidableEq

/-- The content line carried by an operation. -/
def DiffOp.line : DiffOp → DiffLine
  | .equal l => l
  | .insert l => l
  | .delete l => l

/-- Prepend a character to the first line of a line list. -/
def consLine (c : Char) : List DiffLine → List DiffLine
  | [] => [[c]]
  | l :: ls => (c :: l) :: ls

/-- Split a character sequence into its lines at newline characters
(total; the empty text is one empty line). -/
def splitLines : List Char → List DiffLine
  | [] => [[]]
  | c :: cs =>
    if c = '\n' then [] :: splitLines cs
    else consLine c (splitLines cs)

/-- Join lines with newline characters; inverse of `splitLines`. -/
def joinLines : List DiffLine → List Char
  | [] => []
  | [l] => l
  | l :: l2 :: ls => l ++ '\n' :: joinLines (l2 :: ls)

/-- Length of a longest common subsequence of two line sequences. -/
def lcsLen : List DiffLine → List DiffLine → Nat
  | [], _ => 0
  | _ :: _, [] => 0
  | a :: as, b :: bs =>
    if a = b then lcsLen as bs + 1
    else max (lcsLen (a :: as) bs) (lcsLen as (b :: bs))

/-- Modelled from the spec: the line-oriented LCS-based diff alignment of
the DiffEngine (section 4.4; the backend renders diffs with Python difflib,
which is not among the checked-in sources).  Equal heads are kept as
`equal` operations; otherwise the branch preserving a longest common
subsequence is taken. -/
def diffLines : List DiffLine → List DiffLine → List DiffOp
  | [], bs => bs.map .insert
  | a :: as, [] => (a :: as).map .delete
  | a :: as, b :: bs =>
    if a = b then .equal a :: diffLines as bs
    else if lcsLen (a :: as) bs ≤ lcsLen as (b :: bs) then
      .delete a :: diffLines as (b :: bs)
    else .insert b :: diffLines (a :: as) bs

/-- Unified-patch rendering of one op: a marker character followed by the
content ("+" inserted, "-" removed, " " context). -/
def renderOpLine : DiffOp → DiffLine
  | .equal l => ' ' :: l
  | .insert l => '+' :: l
  | .delete l => '-' :: l

/-- The lines of the unified textual patch of an edit script. -/
def unifiedLines (ops : List DiffOp) : List DiffLine :=
  ops.map renderOpLine

/-- One side-by-side row per op: an equal line is paired with itself, an
unmatched line leaves the opposite cell blank (spec section 4.4). -/
def sideBySideRow : DiffOp → Option DiffLine × Option DiffLine
  | .equal l => (some l, some l)
  | .delete l => (some l, none)
  | .insert l => (none, some l)

/-- `DiffResult` (spec section 3): the line-level edit script plus the two
renderings derived from it. -/
structure DiffResult where
  ops : List DiffOp
  unified : String
  leftLines : List (Option DiffLine)
  rightLines : List (Option DiffLine)
deriving DecidableEq

/-- Modelled from the spec: the DiffEngine contract `diff(before, after)`
(section 4.4): pure and total, producing the edit script and both
renderings derived from that one script. -/
def diff (before after : String) : DiffResult :=
  { ops := diffLines (splitLines before.data) (splitLines after.data),
    unified := String.mk (joinLines (unifiedLines
      (diffLines (splitLines before.data) (splitLines after.data)))),
    leftLines := (diffLines (splitLines before.data) (splitLines after.data)).map
      (fun op => (sideBySideRow op).1),
    rightLines := (diffLines (splitLines before.data) (splitLines after.data)).map
      (fun op => (sideBySideRow op).2) }

/-- Parse one rendered unified-patch line back into an op. -/
def parseOpLine : DiffLine → Option DiffOp
  | ' ' :: l => some (.equal l)
  | '+' :: l => some (.insert l)
  | '-' :: l => some (.delete l)
  | _ => none

/-- Parse the lines of a unified textual patch into an edit script. -/
def parseUnified : List DiffLine → Option (List DiffOp)
  | [] => some []
  | l :: ls =>
    match parseOpLine l, parseUnified ls with
    | some op, some ops => some (op :: ops)
    | _, _ => none

/-- Apply an edit script to a line sequence: context and removed lines must
match the input; context and inserted lines make up the output. -/
def applyOps : List DiffOp → List DiffLine → Option (List DiffLine)
  | [], [] => some []
  | [], _ :: _ => none
  | .equal l :: ops, c :: cs =>
    if c = l then (applyOps ops cs).map (fun r => l :: r) else none
  | .equal _ :: _, [] => none
  | .delete l :: ops, c :: cs =>
    if c = l then applyOps ops cs else none
  | .delete _ :: _, [] => none
  | .insert l :: ops, cs => (applyOps ops cs).map (fun r => l :: r)

/-- Apply a unified textual patch (as rendered by `diff`) to a before text:
parse the patch lines, then replay the script on the text's lines. -/
def applyUnifiedPatch (patch before : String) : Option String :=
  match parseUnified (splitLines patch.data) with
  | none => none
  | some ops =>
    (applyOps ops (splitLines before.data)).map
      (fun ls => String.mk (joinLines ls))

/-- Number of insert operations in an edit script. -/
def countInserts (ops : List DiffOp) : Nat :=
  ops.countP (fun op => match op with | .insert _ => true | _ => false)

/-- Number of delete operations in an edit script. -/
def countDeletes (ops : List DiffOp) : Nat :=
  ops.countP (fun op => match op with | .delete _ => true | _ => false)

/-! ## Theorems -/

theorem resolveFrom_length (articles : ArticleStore) (fileId : Nat) :
    ∀ (gs : List InstructionGroup) (idx : Nat),
      (resolveFrom articles fileId idx gs).length = gs.length := by
  intro gs
  induction gs with
  | nil => intro idx; rfl
  | cons g gs ih => intro idx; simp [resolveFrom, ih]

theorem resolveFrom_getElem (articles : ArticleStore) (fileId : Nat) :
    ∀ (gs : List InstructionGroup) (idx i : Nat) (hi : i < gs.length)
      (hi2 : i < (resolveFrom articles fileId idx gs).length),
      (resolveFrom articles fileId idx gs)[i] = resolveGroup articles fileId (idx + i) gs[i] := by
  intro gs
  induction gs with
  | nil => intro idx i hi; exact absurd hi (by simp)
  | cons g gs ih =>
    intro idx i hi hi2
    cases i with
    | zero => simp [resolveFrom]
    | succ n =>
      have hn : n < gs.length := Nat.lt_of_succ_lt_succ hi
      have hn2 : n < (resolveFrom articles fileId (idx + 1) gs).length := by
        rw [resolveFrom_length]; exact hn
      simp only [resolveFrom, List.getElem_cons_succ]
      rw [ih (idx + 1) n hn hn2]
      congr 1
      omega

theorem resolveFrom_fileId (articles : ArticleStore) (fileId : Nat) :
    ∀ (gs : List InstructionGroup) (idx : Nat) (t : EditTarget),
      t ∈ resolveFrom articles fileId idx gs → t.workspace_file_id = fileId := by
  intro gs
  induction gs with
  | nil => intro idx t h; simp [resolveFrom] at h
  | cons g gs ih =>
    intro idx t h
    simp only [resolveFrom, List.mem_cons] at h
    rcases h with h | h
    · subst h
      unfold resolveGroup
      cases g.article_number.bind (fun n => ArticleStore.getByNumber articles n) <;> rfl
    · exact ih (idx + 1) t h

theorem changeKind_spec (b a : String) :
    (changeKind b a = .added ↔ (b = "" ∧ a ≠ "")) ∧
    (changeKind b a = .deleted ↔ (b ≠ "" ∧ a = "")) ∧
    (changeKind b a = .modified ↔ ((b = "" ∧ a = "") ∨ (b ≠ "" ∧ a ≠ ""))) := by
  unfold changeKind
  by_cases hb : b = "" <;> by_cases ha : a = ""
  · have hbe : b.isEmpty = true := (String.isEmpty_iff b).mpr hb
    have hae : a.isEmpty = true := (String.isEmpty_iff a).mpr ha
    simp [hbe, hae, hb, ha]
  · have hbe : b.isEmpty = true := (String.isEmpty_iff b).mpr hb
    have hae : a.isEmpty = false :=
      Bool.eq_false_iff.mpr (fun hh => ha ((String.isEmpty_iff a).mp hh))
    simp [hbe, hae, hb, ha]
    decide
  · have hbe : b.isEmpty = false :=
      Bool.eq_false_iff.mpr (fun hh => hb ((String.isEmpty_iff b).mp hh))
    have hae : a.isEmpty = true := (String.isEmpty_iff a).mpr ha
    simp [hbe, hae, hb, ha]
    decide
  · have hbe : b.isEmpty = false :=
      Bool.eq_false_iff.mpr (fun hh => hb ((String.isEmpty_iff b).mp hh))
    have hae : a.isEmpty = false :=
      Bool.eq_false_iff.mpr (fun hh => ha ((String.isEmpty_iff a).mp hh))
    simp [hbe, hae, hb, ha]

theorem applyTarget_status (t : EditTarget) (articles : ArticleStore)
    (transform : TextTransform) (h : t.status = .pending) :
    ((applyTarget t articles transform).1).status
      = (if transformOk articles transform t then .completed else .failed) := by
  unfold applyTarget transformOk
  rw [if_pos h]
  cases hb : t.article_id.bind (fun i => ArticleStore.getById articles i) with
  | none => simp
  | some a =>
    cases htr : transform a.content t.instruction_text with
    | ok o => simp [htr]
    | error e => simp [htr]

/-- Claim C1: every instruction group of a resolution run yields exactly one
EditTarget (none is dropped); a group whose article reference exists in the
ArticleStore yields a `pending` target with `article_id` set, any other
group yields a `review` target with `article_id` unset. -/
theorem C1_resolution_no_group_dropped (groups : List InstructionGroup)
    (articles : ArticleStore) (fileId : Nat) (i : Nat) (hi : i < groups.length)
    (hi2 : i < (resolve groups articles fileId).length) :
    (resolve groups articles fileId).length = groups.length ∧
    ((resolve groups articles fileId).get ⟨i, hi2⟩).instruction_text
      = (groups.get ⟨i, hi⟩).instruction_text ∧
    (∀ a : Article,
      (groups.get ⟨i, hi⟩).article_number.bind
          (fun n => ArticleStore.getByNumber articles n) = some a →
        ((resolve groups articles fileId).get ⟨i, hi2⟩).article_id = some a.id ∧
        ((resolve groups articles fileId).get ⟨i, hi2⟩).status = .pending) ∧
    ((groups.get ⟨i, hi⟩).article_number.bind
          (fun n => ArticleStore.getByNumber articles n) = none →
      ((resolve groups articles fileId).get ⟨i, hi2⟩).article_id = none ∧
      ((resolve groups articles fileId).get ⟨i, hi2⟩).status = .review) := by
  have hi2r : i < (resolveFrom articles fileId 0 groups).length := hi2
  have hget : (resolve groups articles fileId).get ⟨i, hi2⟩
      = resolveGroup articles fileId i (groups.get ⟨i, hi⟩) := by
    show (resolveFrom articles fileId 0 groups).get ⟨i, hi2r⟩ = _
    simp only [List.get_eq_getElem]
    rw [resolveFrom_getElem articles fileId groups 0 i hi hi2r]
    simp
  refine ⟨by simp [resolve, resolveFrom_length], ?_, ?_, ?_⟩
  · rw [hget]
    unfold resolveGroup
    cases h : (groups.get ⟨i, hi⟩).article_number.bind
        (fun n => ArticleStore.getByNumber articles n) <;> rfl
  · intro a ha
    rw [hget]
    rw [List.get_eq_getElem] at ha
    simp [resolveGroup, ha]
  · intro ha
    rw [hget]
    rw [List.get_eq_getElem] at ha
    simp [resolveGroup, ha]

/-- Witness for C1: on the spec scenario (groups referencing articles "1"
and "99" against a store holding only "1"), resolution yields a pending
target bound to article 1 and a review target with `article_id` unset. -/
theorem C1_resolution_witness :
    ((resolve scenGroups scenArticles 7).get ⟨1, by decide⟩).status = .review ∧
    ((resolve scenGroups scenArticles 7).get ⟨1, by decide⟩).article_id = none ∧
    ((resolve scenGroups scenArticles 7).get ⟨0, by decide⟩).status = .pending ∧
    ((resolve scenGroups scenArticles 7).get ⟨0, by decide⟩).article_id = some 1 := by
  have h1 := C1_resolution_no_group_dropped scenGroups scenArticles 7 1
    (by decide) (by decide)
  have h0 := C1_resolution_no_group_dropped scenGroups scenArticles 7 0
    (by decide) (by decide)
  obtain ⟨-, -, -, hrev⟩ := h1
  obtain ⟨-, -, hpen, -⟩ := h0
  have hr := hrev (by decide)
  have hp := hpen { id := 1, article_number := "1", title := "Статья 1", content := "X" }
    (by decide)
  exact ⟨hr.2, hr.1, hp.2, hp.1⟩

/-- Claim C2: applying a target whose status is `review` fails synchronously
with `InvalidStateTransition`, leaves the target unchanged and creates no
`PatchedFragment`; more generally, apply is rejected the same way for every
status other than `pending`, so it can succeed only on a `pending` target. -/
theorem C2_apply_review_rejected (t u : EditTarget) (articles : ArticleStore)
    (transform : TextTransform) (ht : t.status = .review)
    (hu : u.status ≠ .pending) :
    applyTarget t articles transform = (t, none, some .invalidStateTransition) ∧
    applyTarget u articles transform = (u, none, some .invalidStateTransition) := by
  constructor
  · have hne : t.status ≠ .pending := by rw [ht]; decide
    unfold applyTarget
    rw [if_neg hne]
  · unfold applyTarget
    rw [if_neg hu]

/-- Witness for C2: the concrete review target is rejected with
`InvalidStateTransition` and unchanged, as is a completed target. -/
theorem C2_apply_review_witness :
    applyTarget demoReview scenArticles demoTransform
      = (demoReview, none, some .invalidStateTransition) ∧
    applyTarget demoCompleted scenArticles demoTransform
      = (demoCompleted, none, some .invalidStateTransition) :=
  C2_apply_review_rejected demoReview demoCompleted scenArticles demoTransform
    (by decide) (by decide)

/-- Claim C3 counterexample: the status union in
`frontend/src/types/index.ts` also contains `running`, so the set of
EditTarget statuses is not exactly the four claimed. -/
theorem C3_status_counterexample :
    EditJobStatus.running ≠ .pending ∧ EditJobStatus.running ≠ .completed ∧
    EditJobStatus.running ≠ .failed ∧ EditJobStatus.running ≠ .review := by
  decide

/-- Claim C3 (amended): the status set is exactly pending, running,
completed, failed, review; the allowed transitions of the modelled state
machine are exactly pending→completed, pending→failed, review→pending and
failed→pending, so review never reaches completed or failed directly and
neither completed nor failed ever returns to review. -/
theorem C3_status_machine_amended :
    (∀ s : EditJobStatus,
      s = .pending ∨ s = .running ∨ s = .completed ∨ s = .failed ∨ s = .review) ∧
    (∀ a b : EditJobStatus, allowedTransition a b = true ↔
      ((a = .pending ∧ b = .completed) ∨ (a = .pending ∧ b = .failed) ∨
       (a = .review ∧ b = .pending) ∨ (a = .failed ∧ b = .pending))) ∧
    allowedTransition .review .completed = false ∧
    allowedTransition .review .failed = false ∧
    allowedTransition .completed .review = false ∧
    allowedTransition .failed .review = false := by
  refine ⟨fun s => ?_, fun a b => ?_, by decide, by decide, by decide, by decide⟩
  · cases s <;> decide
  · cases a <;> cases b <;> decide

/-- Claim C4: the change kind of every fragment produced by applying a
target is a pure function of its before/after pair: `added` iff before is
empty and after non-empty, `deleted` iff before is non-empty and after
empty, `modified` in every other case. -/
theorem C4_change_kind_characterisation (t : EditTarget) (articles : ArticleStore)
    (transform : TextTransform) (f : PatchedFragment)
    (h : (applyTarget t articles transform).2.1 = some f) :
    f.change_type = changeKind f.before_text f.after_text ∧
    (f.change_type = .added ↔ (f.before_text = "" ∧ f.after_text ≠ "")) ∧
    (f.change_type = .deleted ↔ (f.before_text ≠ "" ∧ f.after_text = "")) ∧
    (f.change_type = .modified ↔
      ((f.before_text = "" ∧ f.after_text = "") ∨
       (f.before_text ≠ "" ∧ f.after_text ≠ ""))) := by
  have hck : f.change_type = changeKind f.before_text f.after_text := by
    unfold applyTarget at h
    split at h
    · split at h
      · simp at h
      · split at h
        · dsimp only at h
          injection h with h
          subst h
          rfl
        · simp at h
    · simp at h
  refine ⟨hck, ?_⟩
  rw [hck]
  exact changeKind_spec f.before_text f.after_text

/-- Witness for C4: the fragment produced for the concrete pending target
has a non-empty before and after, hence change kind `modified`. -/
theorem C4_change_kind_witness : demoFragment.change_type = ChangeType.modified := by
  have h := C4_change_kind_characterisation demoPending scenArticles demoTransform
    demoFragment (by decide)
  exact h.2.2.2.mpr (Or.inr ⟨by decide, by decide⟩)

theorem targetsFor_after_create (st : PipelineState) (fileId : Nat)
    (groups : List InstructionGroup) (articles : ArticleStore) :
    targetsFor { st with targets := st.targets ++ resolve groups articles fileId } fileId
      = targetsFor st fileId ++ resolve groups articles fileId := by
  unfold targetsFor
  simp only [List.filter_append]
  congr 1
  rw [List.filter_eq_self]
  intro t ht
  have hw := resolveFrom_fileId articles fileId groups 0 t ht
  simp [hw]

/-- Claim C7: `runResolution` is idempotent — when targets already exist for
the file it returns them unchanged without creating new ones, and running it
twice in a row gives the same store and the same target list both times. -/
theorem C7_resolution_idempotent (st : PipelineState) (fileId : Nat)
    (groups : List InstructionGroup) (articles : ArticleStore) :
    (targetsFor st fileId ≠ [] →
      runResolution st fileId groups articles = (st, targetsFor st fileId)) ∧
    runResolution (runResolution st fileId groups articles).1 fileId groups articles
      = runResolution st fileId groups articles := by
  have hfirst : ∀ h : targetsFor st fileId ≠ [],
      runResolution st fileId groups articles = (st, targetsFor st fileId) := by
    intro h
    unfold runResolution
    rw [if_neg (by simp [h])]
  refine ⟨hfirst, ?_⟩
  by_cases hE : targetsFor st fileId = []
  · have h1 : runResolution st fileId groups articles
        = ({ st with targets := st.targets ++ resolve groups articles fileId },
           resolve groups articles fileId) := by
      unfold runResolution
      rw [if_pos (by simp [hE])]
    rw [h1]
    have h2 : targetsFor { st with targets := st.targets ++ resolve groups articles fileId } fileId
        = resolve groups articles fileId := by
      rw [targetsFor_after_create, hE]
      rfl
    by_cases hcr : resolve groups articles fileId = []
    · have h1' : ({ st with targets := st.targets ++ resolve groups articles fileId },
          resolve groups articles fileId) = ((st, []) : PipelineState × List EditTarget) := by
        rw [hcr]
        cases st
        simp
      rw [h1']
      unfold runResolution
      rw [if_pos (by simp [hE])]
      rw [hcr]
      cases st
      simp
    · unfold runResolution
      rw [if_neg (by simp [h2, hcr])]
      simp [h2]
  · rw [hfirst hE, hfirst hE]

/-- Witness for C7: on a store already holding a target for file 1, the run
returns the stored targets unchanged, and a repeated run agrees. -/
theorem C7_resolution_witness :
    runResolution demoState 1 scenGroups scenArticles = (demoState, targetsFor demoState 1) ∧
    runResolution (runResolution demoState 1 scenGroups scenArticles).1 1 scenGroups scenArticles
      = runResolution demoState 1 scenGroups scenArticles :=
  ⟨(C7_resolution_idempotent demoState 1 scenGroups scenArticles).1 (by decide),
   (C7_resolution_idempotent demoState 1 scenGroups scenArticles).2⟩

/-- Claim C8: per-target failures are isolated in `runApplication` — if all
stored targets of the file are pending and the transform attempt fails for
exactly the target at position `j`, then after the run the target at `j` is
`failed` and every other target is `completed`. -/
theorem C8_partial_failure_isolation (st : PipelineState) (fileId : Nat)
    (articles : ArticleStore) (transform : TextTransform) (j i : Nat)
    (hall : ∀ t ∈ st.targets, t.workspace_file_id = fileId ∧ t.status = .pending)
    (hj : j < st.targets.length)
    (hi : i < st.targets.length)
    (hi2 : i < (runApplication st fileId articles transform).targets.length)
    (hfail : transformOk articles transform (st.targets.get ⟨j, hj⟩) = false)
    (hok : ∀ k (hk : k < st.targets.length), k ≠ j →
      transformOk articles transform (st.targets.get ⟨k, hk⟩) = true) :
    ((runApplication st fileId articles transform).targets.get ⟨i, hi2⟩).status
      = (if i = j then .failed else .completed) := by
  obtain ⟨hw, hp⟩ := hall (st.targets.get ⟨i, hi⟩) (st.targets.get_mem i hi)
  have hstep : (runApplication st fileId articles transform).targets.get ⟨i, hi2⟩
      = stepTarget articles transform fileId (st.targets.get ⟨i, hi⟩) := by
    simp [runApplication, List.get_eq_getElem]
  rw [hstep]
  unfold stepTarget
  rw [if_pos ⟨hw, hp⟩]
  rw [applyTarget_status _ _ _ hp]
  by_cases hij : i = j
  · subst hij
    have hfail2 : transformOk articles transform (st.targets.get ⟨i, hi⟩) = false := hfail
    rw [hfail2]
    simp
  · rw [hok i hi hij]
    simp [hij]

/-- Witness for C8: three pending targets, the middle one failing under
`demoTransform` — after the run two are completed and one failed. -/
theorem C8_partial_failure_witness :
    ((runApplication demoState3 1 scenArticles demoTransform).targets.get
        ⟨0, by decide⟩).status = .completed ∧
    ((runApplication demoState3 1 scenArticles demoTransform).targets.get
        ⟨1, by decide⟩).status = .failed ∧
    ((runApplication demoState3 1 scenArticles demoTransform).targets.get
        ⟨2, by decide⟩).status = .completed := by
  have h0 := C8_partial_failure_isolation demoState3 1 scenArticles demoTransform 1 0
    (by decide) (by decide) (by decide) (by decide) (by decide) (by decide)
  have h1 := C8_partial_failure_isolation demoState3 1 scenArticles demoTransform 1 1
    (by decide) (by decide) (by decide) (by decide) (by decide) (by decide)
  have h2 := C8_partial_failure_isolation demoState3 1 scenArticles demoTransform 1 2
    (by decide) (by decide) (by decide) (by decide) (by decide) (by decide)
  exact ⟨by simpa using h0, by simpa using h1, by simpa using h2⟩

/-- Claim C9 (code bug): `handleDeleteTarget` in `ReviewPage.tsx` calls
`editsAPI.deleteTarget`, but `editsAPI` in `frontend/src/services/api.ts`
exports no such member, so the call throws, the catch branch runs, and no
target is ever removed — the delete operation can never succeed. -/
theorem C9_delete_target_never_removes (targets : List EditTarget) (targetId : Nat) :
    handleDeleteTarget targets targetId = (targets, false) := by
  have h : editsAPI_has "deleteTarget" = false := by decide
  unfold handleDeleteTarget
  rw [h]
  simp

/-- Claim C10: whenever the apply button is enabled (`applyDisabled` is
false), every listed target has a non-null `article_id`, so `startPhase2`
can only be initiated with no unresolved target in the list. -/
theorem C10_phase2_gate (targets : List EditTarget) (t : EditTarget)
    (h : applyDisabled targets = false) (ht : t ∈ targets) :
    t.article_id.isSome = true := by
  unfold applyDisabled at h
  rw [List.any_eq_false] at h
  have h2 := h t ht
  cases hid : t.article_id with
  | none =>
    rw [hid] at h2
    simp [jsTruthyId] at h2
  | some n => rfl

/-- Witness for C10: with the single concrete target (whose `article_id` is
set) the gate is enabled and the theorem yields its non-null id. -/
theorem C10_phase2_gate_witness : demoPending.article_id.isSome = true :=
  C10_phase2_gate [demoPending] demoPending (by decide) (by decide)

theorem splitLines_ne_nil : ∀ cs : List Char, splitLines cs ≠ []
  | [] => by simp [splitLines]
  | c :: cs => by
    unfold splitLines
    by_cases h : c = '\n'
    · simp [h]
    · rw [if_neg h]
      cases hs : splitLines cs with
      | nil => simp [consLine]
      | cons l ls => simp [consLine]

theorem joinLines_splitLines : ∀ cs : List Char, joinLines (splitLines cs) = cs
  | [] => rfl
  | c :: cs => by
    have ih := joinLines_splitLines cs
    by_cases h : c = '\n'
    · show joinLines (splitLines (c :: cs)) = c :: cs
      conv_lhs => rw [splitLines]
      rw [if_pos h, h]
      cases hs : splitLines cs with
      | nil => exact absurd hs (splitLines_ne_nil cs)
      | cons l ls =>
        rw [hs] at ih
        show joinLines ([] :: l :: ls) = '\n' :: cs
        rw [joinLines, ih]
        rfl
    · show joinLines (splitLines (c :: cs)) = c :: cs
      conv_lhs => rw [splitLines]
      rw [if_neg h]
      cases hs : splitLines cs with
      | nil => exact absurd hs (splitLines_ne_nil cs)
      | cons l ls =>
        rw [hs] at ih
        rw [consLine]
        cases ls with
        | nil =>
          show joinLines [c :: l] = c :: cs
          rw [joinLines]
          rw [joinLines] at ih
          rw [ih]
        | cons l2 ls2 =>
          show joinLines ((c :: l) :: l2 :: ls2) = c :: cs
          rw [joinLines] at ih ⊢
          rw [← ih]
          rfl

theorem splitLines_no_newline_mem :
    ∀ (cs : List Char) (l : DiffLine), l ∈ splitLines cs → '\n' ∉ l
  | [], l => by
    intro hl
    simp [splitLines] at hl
    subst hl
    simp
  | c :: cs, l => by
    intro hl
    unfold splitLines at hl
    by_cases h : c = '\n'
    · rw [if_pos h] at hl
      rcases List.mem_cons.mp hl with h1 | h1
      · subst h1; simp
      · exact splitLines_no_newline_mem cs l h1
    · rw [if_neg h] at hl
      cases hs : splitLines cs with
      | nil => exact absurd hs (splitLines_ne_nil cs)
      | cons m ms =>
        rw [hs, consLine] at hl
        rcases List.mem_cons.mp hl with h1 | h1
        · subst h1
          intro hmem
          rcases List.mem_cons.mp hmem with hc | hc
          · exact h hc.symm
          · exact splitLines_no_newline_mem cs m
              (by rw [hs]; exact List.mem_cons_self m ms) hc
        · exact splitLines_no_newline_mem cs l
            (by rw [hs]; exact List.mem_cons_of_mem m h1)

theorem splitLines_of_no_newline : ∀ l : DiffLine, '\n' ∉ l → splitLines l = [l]
  | [] => fun _ => rfl
  | c :: l => fun h => by
    have hc : c ≠ '\n' := fun hh => h (hh ▸ List.mem_cons_self c l)
    have hl : '\n' ∉ l := fun hh => h (List.mem_cons_of_mem c hh)
    unfold splitLines
    rw [if_neg hc, splitLines_of_no_newline l hl]
    rfl

theorem splitLines_append_newline :
    ∀ (l : DiffLine) (rest : List Char), '\n' ∉ l →
      splitLines (l ++ '\n' :: rest) = l :: splitLines rest
  | [], rest => fun _ => by simp [splitLines]
  | c :: l, rest => fun h => by
    have hc : c ≠ '\n' := fun hh => h (hh ▸ List.mem_cons_self c l)
    have hl : '\n' ∉ l := fun hh => h (List.mem_cons_of_mem c hh)
    show splitLines (c :: (l ++ '\n' :: rest)) = (c :: l) :: splitLines rest
    conv_lhs => rw [splitLines]
    rw [if_neg hc, splitLines_append_newline l rest hl]
    rfl

theorem splitLines_joinLines :
    ∀ ls : List DiffLine, ls ≠ [] → (∀ l ∈ ls, '\n' ∉ l) →
      splitLines (joinLines ls) = ls
  | [] => fun h _ => absurd rfl h
  | [l] => fun _ h => by
    show splitLines (joinLines [l]) = [l]
    rw [joinLines]
    exact splitLines_of_no_newline l (h l (by simp))
  | l :: l2 :: ls => fun _ h => by
    show splitLines (joinLines (l :: l2 :: ls)) = l :: l2 :: ls
    rw [joinLines]
    rw [splitLines_append_newline l _ (h l (by simp))]
    rw [splitLines_joinLines (l2 :: ls) (by simp)
      (fun x hx => h x (List.mem_cons_of_mem l hx))]

theorem diffLines_self : ∀ as : List DiffLine, diffLines as as = as.map .equal
  | [] => by simp [diffLines]
  | a :: as => by simp [diffLines, diffLines_self as]

theorem diffLines_ne_nil : ∀ (as bs : List DiffLine), as ≠ [] → diffLines as bs ≠ []
  | [], _ => fun h => absurd rfl h
  | a :: as, [] => fun _ => by simp [diffLines]
  | a :: as, b :: bs => fun _ => by
    by_cases h : a = b
    · simp [diffLines, h]
    · by_cases h2 : lcsLen (a :: as) bs ≤ lcsLen as (b :: bs) <;>
        simp [diffLines, h, h2]

theorem diffLines_line_mem (as bs : List DiffLine) :
    ∀ op ∈ diffLines as bs, op.line ∈ as ∨ op.line ∈ bs := by
  induction as, bs using diffLines.induct with
  | case1 bs =>
    intro op hop
    rw [diffLines] at hop
    obtain ⟨l, hl, rfl⟩ := List.mem_map.mp hop
    exact Or.inr (by simpa [DiffOp.line] using hl)
  | case2 a as =>
    intro op hop
    rw [diffLines] at hop
    obtain ⟨l, hl, rfl⟩ := List.mem_map.mp hop
    exact Or.inl (by simpa [DiffOp.line] using hl)
  | case3 as b bs ih =>
    intro op hop
    rw [diffLines, if_pos rfl] at hop
    rcases List.mem_cons.mp hop with h1 | h1
    · subst h1; exact Or.inl (by simp [DiffOp.line])
    · rcases ih op h1 with h2 | h2
      · exact Or.inl (List.mem_cons_of_mem b h2)
      · exact Or.inr (List.mem_cons_of_mem b h2)
  | case4 a as b bs hne hle ih =>
    intro op hop
    rw [diffLines, if_neg hne, if_pos hle] at hop
    rcases List.mem_cons.mp hop with h1 | h1
    · subst h1; exact Or.inl (by simp [DiffOp.line])
    · rcases ih op h1 with h2 | h2
      · exact Or.inl (List.mem_cons_of_mem a h2)
      · exact Or.inr h2
  | case5 a as b bs hne hgt ih =>
    intro op hop
    rw [diffLines, if_neg hne, if_neg hgt] at hop
    rcases List.mem_cons.mp hop with h1 | h1
    · subst h1; exact Or.inr (by simp [DiffOp.line])
    · rcases ih op h1 with h2 | h2
      · exact Or.inl h2
      · exact Or.inr (List.mem_cons_of_mem b h2)

theorem renderOpLine_no_newline (op : DiffOp) (h : '\n' ∉ op.line) :
    '\n' ∉ renderOpLine op := by
  cases op <;>
  · simp [renderOpLine, DiffOp.line] at h ⊢
    intro hc
    exact absurd hc h

theorem applyOps_insertAll : ∀ bs : List DiffLine, applyOps (bs.map .insert) [] = some bs
  | [] => rfl
  | b :: bs => by simp [applyOps, applyOps_insertAll bs]

theorem applyOps_deleteAll : ∀ as : List DiffLine, applyOps (as.map .delete) as = some []
  | [] => rfl
  | a :: as => by simp [applyOps, applyOps_deleteAll as]

theorem applyOps_diffLines (as bs : List DiffLine) :
    applyOps (diffLines as bs) as = some bs := by
  induction as, bs using diffLines.induct with
  | case1 bs => rw [diffLines]; exact applyOps_insertAll bs
  | case2 a as => rw [diffLines]; exact applyOps_deleteAll (a :: as)
  | case3 as b bs ih =>
    rw [diffLines, if_pos rfl]
    simp [applyOps, ih]
  | case4 a as b bs hne hle ih =>
    rw [diffLines, if_neg hne, if_pos hle]
    simp [applyOps, ih]
  | case5 a as b bs hne hgt ih =>
    rw [diffLines, if_neg hne, if_neg hgt]
    simp [applyOps, ih]

theorem parseUnified_unifiedLines :
    ∀ ops : List DiffOp, parseUnified (unifiedLines ops) = some ops
  | [] => rfl
  | op :: ops => by
    show parseUnified (renderOpLine op :: unifiedLines ops) = some (op :: ops)
    rw [parseUnified]
    rw [parseUnified_unifiedLines ops]
    cases op <;> rfl

/-- Claim C5: the DiffEngine is total (`diff` is a total function on all
string pairs) and `diff(x, x)` yields an edit script with zero insert and
zero delete operations for every string `x`. -/
theorem C5_diff_self_no_edits (x : String) :
    countInserts (diff x x).ops = 0 ∧ countDeletes (diff x x).ops = 0 := by
  have hops : (diff x x).ops = (splitLines x.data).map .equal := by
    show diffLines (splitLines x.data) (splitLines x.data) = _
    exact diffLines_self _
  rw [hops]
  unfold countInserts countDeletes
  constructor <;>
  · rw [List.countP_eq_zero]
    intro op hop
    obtain ⟨l, -, rfl⟩ := List.mem_map.mp hop
    simp

/-- Claim C6: applying the unified textual patch rendering of
`diff(before, after)` to `before` reconstructs `after` exactly, for every
pair of strings. -/
theorem C6_unified_roundtrip (before after : String) :
    applyUnifiedPatch (diff before after).unified before = some after := by
  have hu : (diff before after).unified
      = String.mk (joinLines (unifiedLines
          (diffLines (splitLines before.data) (splitLines after.data)))) := rfl
  set ops := diffLines (splitLines before.data) (splitLines after.data) with hops
  have hnn : ∀ l ∈ unifiedLines ops, '\n' ∉ l := by
    intro l hl
    obtain ⟨op, hop, rfl⟩ := List.mem_map.mp hl
    apply renderOpLine_no_newline
    rcases diffLines_line_mem _ _ op hop with h | h
    · exact splitLines_no_newline_mem before.data op.line h
    · exact splitLines_no_newline_mem after.data op.line h
  have hne : unifiedLines ops ≠ [] := by
    unfold unifiedLines
    intro hmap
    exact diffLines_ne_nil _ _ (splitLines_ne_nil before.data)
      (List.map_eq_nil_iff.mp hmap)
  unfold applyUnifiedPatch
  rw [hu]
  rw [show (String.mk (joinLines (unifiedLines ops))).data
      = joinLines (unifiedLines ops) from rfl]
  rw [splitLines_joinLines _ hne hnn]
  rw [parseUnified_unifiedLines ops]
  show (applyOps ops (splitLines before.data)).map
      (fun ls => String.mk (joinLines ls)) = some after
  rw [applyOps_diffLines]
  show some (String.mk (joinLines (splitLines after.data))) = some after
  rw [joinLines_splitLines]
